import Mathlib

/-!
Verification of `apidiff.py`, a tool that extracts a repository subtree at
two revisions and shells out to jdiff to compare the generated API
descriptions.

The shallow embedding below models:
  * paths as lists of segments (`RPath`), matching `pathlib.Path` parts;
  * a git tree (`GitTree`/`GitForest`) with named blobs and named subtrees;
  * `_list_paths`, the recursive walk filtering blobs whose path has the
    source folder as a strict ancestor (`Path(src_folder) in Path(p).parents`);
  * `copy_commit_paths`, threading an explicit filesystem state (created
    directories, written files) and aborting on a UTF-8 decode failure;
  * the process wrappers `gen_xml` and `compare_xml` as functions of the
    launch outcome of the external `javadoc` process, recording log content,
    printed lines, and whether the program terminates via `exit(1)`;
  * the helpers `open_log_file`, `fix_path`, `log_and_print` and `make_dir`.
-/

/-- A filesystem or repository path, as its list of segments
(the `parts` of a `pathlib.Path`). -/
abbrev RPath := List String

/-- Raw blob content, as a list of byte values. -/
abbrev Bytes := List Nat

/-! ### UTF-8 decoding, the embedding of `bytes.decode(&#39;utf-8&#39;)` -/

/-- A UTF-8 continuation byte, `0x80..0xBF`. -/
def is_cont (b : Nat) : Bool := decide (0x80 ≤ b ∧ b ≤ 0xBF)

/-- Valid second byte of a three-byte sequence (rejecting overlong forms and
surrogates, as Python's strict UTF-8 decoder does). -/
def valid3snd (b b1 : Nat) : Bool :=
  ((b == 0xE0) && decide (0xA0 ≤ b1 ∧ b1 ≤ 0xBF)) ||
  ((b == 0xED) && decide (0x80 ≤ b1 ∧ b1 ≤ 0x9F)) ||
  ((b != 0xE0) && (b != 0xED) && is_cont b1)

/-- Valid second byte of a four-byte sequence (rejecting overlong forms and
code points above `U+10FFFF`). -/
def valid4snd (b b1 : Nat) : Bool :=
  ((b == 0xF0) && decide (0x90 ≤ b1 ∧ b1 ≤ 0xBF)) ||
  ((b == 0xF1 || b == 0xF2 || b == 0xF3) && is_cont b1) ||
  ((b == 0xF4) && decide (0x80 ≤ b1 ∧ b1 ≤ 0x8F))

/-- Strict UTF-8 decoding of a byte list into code points; `none` models the
`UnicodeDecodeError` raised by `bytes.decode` on invalid input. -/
def utf8DecodeCore : List Nat → Option (List Nat)
  | [] => some []
  | b :: rest =>
    if b ≤ 0x7F then
      (utf8DecodeCore rest).map (fun cs => b :: cs)
    else if b < 0xC2 then none
    else if b ≤ 0xDF then
      match rest with
      | b1 :: rest1 =>
        if is_cont b1 then
          (utf8DecodeCore rest1).map (fun cs => ((b - 0xC0) * 0x40 + (b1 - 0x80)) :: cs)
        else none
      | [] => none
    else if b ≤ 0xEF then
      match rest with
      | b1 :: b2 :: rest2 =>
        if valid3snd b b1 && is_cont b2 then
          (utf8DecodeCore rest2).map
            (fun cs => ((b - 0xE0) * 0x1000 + (b1 - 0x80) * 0x40 + (b2 - 0x80)) :: cs)
        else none
      | _ => none
    else if b ≤ 0xF4 then
      match rest with
      | b1 :: b2 :: b3 :: rest3 =>
        if valid4snd b b1 && is_cont b2 && is_cont b3 then
          (utf8DecodeCore rest3).map
            (fun cs =>
              ((b - 0xF0) * 0x40000 + (b1 - 0x80) * 0x1000 +
                (b2 - 0x80) * 0x40 + (b3 - 0x80)) :: cs)
        else none
      | _ => none
    else none

/-- The embedding of `blob.data_stream.read().decode(&#39;utf-8&#39;)`: decode the
blob's bytes to a string, `none` on a `UnicodeDecodeError`. -/
def utf8Decode (bs : Bytes) : Option String :=
  (utf8DecodeCore bs).map (fun cps => String.mk (cps.map Char.ofNat))

/-! ### The git tree model and `_list_paths` -/

mutual
/-- A tree object of a resolved commit: its blobs (`root_tree.blobs`, each a
name plus byte content) and named subtrees (`root_tree.trees`). -/
inductive GitTree : Type where
  | node (blobs : List (String × Bytes)) (trees : GitForest)

/-- The list of named subtrees of a tree object. -/
inductive GitForest : Type where
  | nil : GitForest
  | cons (name : String) (t : GitTree) (rest : GitForest) : GitForest
end

/-- The membership test `Path(src_folder) in Path(p).parents`: the parents of
a relative path are exactly its proper prefixes (down to `Path(".")`, the
empty segment list), so the test holds iff `src` is a strict prefix of `p`. -/
def in_parents (src p : RPath) : Bool :=
  src.isPrefixOf p && decide (src.length < p.length)

mutual
/-- The embedding of `_list_paths(root_tree, src_folder, path)`: yield each
blob whose accumulated path passes the `in_parents` filter, then recurse into
every subtree with the extended path prefix. -/
def list_paths : GitTree → RPath → RPath → List (RPath × Bytes)
  | .node blobs trees, src_folder, path =>
    (blobs.filterMap (fun nb =>
      let next_path := path ++ [nb.1]
      if in_parents src_folder next_path then some (next_path, nb.2) else none)) ++
    forest_paths trees src_folder path

/-- The `for tree in root_tree.trees` loop of `_list_paths`. -/
def forest_paths : GitForest → RPath → RPath → List (RPath × Bytes)
  | .nil, _, _ => []
  | .cons name t rest, src_folder, path =>
    list_paths t src_folder (path ++ [name]) ++ forest_paths rest src_folder path
end

mutual
/-- All blob entries of a tree, with full paths, no filtering. -/
def tree_entries : GitTree → RPath → List (RPath × Bytes)
  | .node blobs trees, path =>
    blobs.map (fun nb => (path ++ [nb.1], nb.2)) ++ forest_entries trees path

/-- All blob entries of a forest of subtrees. -/
def forest_entries : GitForest → RPath → List (RPath × Bytes)
  | .nil, _ => []
  | .cons name t rest, path =>
    tree_entries t (path ++ [name]) ++ forest_entries rest path
end

theorem blobs_filterMap_eq_filter (blobs : List (String × Bytes)) (src path : RPath) :
    (blobs.filterMap (fun nb =>
      let next_path := path ++ [nb.1]
      if in_parents src next_path then some (next_path, nb.2) else none)) =
    (blobs.map (fun nb => (path ++ [nb.1], nb.2))).filter (fun e => in_parents src e.1) := by
  induction blobs with
  | nil => rfl
  | cons b bs ih =>
    simp only [List.filterMap_cons, List.map_cons, List.filter_cons]
    by_cases h : in_parents src (path ++ [b.1]) <;> simp [h, ih]

mutual
/-- The walk of `_list_paths` yields exactly the tree's entries whose path
passes the strict-ancestor filter. -/
theorem list_paths_eq_filter (t : GitTree) (src path : RPath) :
    list_paths t src path =
      (tree_entries t path).filter (fun e => in_parents src e.1) := by
  cases t with
  | node blobs trees =>
    rw [list_paths, tree_entries, List.filter_append,
      blobs_filterMap_eq_filter blobs src path, forest_paths_eq_filter trees src path]

/-- Forest version of `list_paths_eq_filter`. -/
theorem forest_paths_eq_filter (f : GitForest) (src path : RPath) :
    forest_paths f src path =
      (forest_entries f path).filter (fun e => in_parents src e.1) := by
  cases f with
  | nil => rfl
  | cons name t rest =>
    rw [forest_paths, forest_entries, List.filter_append,
      list_paths_eq_filter t src (path ++ [name]), forest_paths_eq_filter rest src path]
end

/-! ### Filesystem state and `copy_commit_paths` -/

/-- Local filesystem state, as the set of directories requested from
`make_dir` and the contents of written files. -/
@[ext]
structure FS where
  dirs : RPath → Bool
  files : RPath → Option String

/-- The empty filesystem. -/
def FS.empty : FS := ⟨fun _ => false, fun _ => none⟩

/-- The effect of `make_dir(p)` on the filesystem state. -/
def make_dir_fs (fs : FS) (p : RPath) : FS :=
  { fs with dirs := fun q => if q = p then true else fs.dirs q }

/-- The effect of writing string `c` to file `p` (mode `w` truncates and
overwrites, so the previous content is irrelevant). -/
def write_file (fs : FS) (p : RPath) (c : String) : FS :=
  { fs with files := fun q => if q = p then some c else fs.files q }

/-- The embedding of `os.path.relpath(rel_path, src_folder)` in the only case
the extractor reaches: `src_folder` is an ancestor of `rel_path` (guaranteed
by the `in_parents` filter of `list_paths`), so the relative path is the
remainder after the ancestor's segments. -/
def relpath (p src : RPath) : RPath := p.drop src.length

/-- Output location of one extracted entry:
`os.path.join(output_folder, os.path.relpath(rel_path, src_folder))`. -/
def entry_out (src_folder output_folder : RPath) (e : RPath × Bytes) : RPath :=
  output_folder ++ relpath e.1 src_folder

/-- The body of the `for rel_path, blob in _list_paths(...)` loop of
`copy_commit_paths`: create the parent directory, open the output file in
mode `w` (truncating it), then decode the blob and write it.  A decode
failure leaves the truncated file and raises, reported as the failing
entry's repository path. -/
def copy_one (src_folder output_folder : RPath) (fs : FS) (e : RPath × Bytes) :
    FS × Option RPath :=
  let output_path := entry_out src_folder output_folder e
  let parent_folder := output_path.dropLast
  let fs1 := make_dir_fs fs parent_folder
  let fs2 := write_file fs1 output_path ""
  match utf8Decode e.2 with
  | some text => (write_file fs2 output_path text, none)
  | none => (fs2, some e.1)

/-- Run the extraction loop over a list of entries, aborting at the first
decode failure (the propagating `UnicodeDecodeError`). -/
def copy_entries (src_folder output_folder : RPath) (fs : FS) :
    List (RPath × Bytes) → FS × Option RPath
  | [] => (fs, none)
  | e :: rest =>
    match copy_one src_folder output_folder fs e with
    | (fs1, none) => copy_entries src_folder output_folder fs1 rest
    | (fs1, some err) => (fs1, some err)

/-- The embedding of `copy_commit_paths(repo_path, commit_id, src_folder,
output_folder)`: resolve the commit's tree (here passed directly) and run the
extraction loop over `_list_paths(tree, src_folder)`. -/
def copy_commit_paths (tree : GitTree) (src_folder output_folder : RPath) (fs : FS) :
    FS × Option RPath :=
  copy_entries src_folder output_folder fs (list_paths tree src_folder [])

/-! ### Pure views of one extraction run -/

/-- The content the run leaves at path `p`, if the run writes `p` at all:
the last write wins, and entries after the first decode failure never run
(the failing entry itself leaves its output truncated to `""`). -/
def runWrite (src_folder output_folder : RPath) :
    List (RPath × Bytes) → RPath → Option String
  | [], _ => none
  | e :: rest, p =>
    match utf8Decode e.2 with
    | some text =>
      match runWrite src_folder output_folder rest p with
      | some v => some v
      | none => if p = entry_out src_folder output_folder e then some text else none
    | none => if p = entry_out src_folder output_folder e then some "" else none

/-- Whether the run requests creation of directory `p`. -/
def runDir (src_folder output_folder : RPath) :
    List (RPath × Bytes) → RPath → Bool
  | [], _ => false
  | e :: rest, p =>
    match utf8Decode e.2 with
    | some _ =>
      decide (p = (entry_out src_folder output_folder e).dropLast) ||
        runDir src_folder output_folder rest p
    | none => decide (p = (entry_out src_folder output_folder e).dropLast)

/-- The error the run aborts with: the path of the first entry whose blob
fails to decode, if any. -/
def runErr : List (RPath × Bytes) → Option RPath
  | [] => none
  | e :: rest =>
    match utf8Decode e.2 with
    | some _ => runErr rest
    | none => some e.1

/-- Master lemma: the stateful extraction loop equals its pure views — final
directories are the requested ones plus the initial ones, final file contents
are the run's last writes falling back to the initial contents, and the error
is the first decode failure. -/
theorem copy_entries_eq (src_folder output_folder : RPath)
    (es : List (RPath × Bytes)) (fs : FS) :
    copy_entries src_folder output_folder fs es =
      ({ dirs := fun q => runDir src_folder output_folder es q || fs.dirs q,
         files := fun q =>
           (runWrite src_folder output_folder es q).elim (fs.files q) some },
       runErr es) := by
  induction es generalizing fs with
  | nil =>
    refine Prod.ext ?_ rfl
    refine FS.ext ?_ ?_ <;> funext q <;> simp [copy_entries, runDir, runWrite]
  | cons e rest ih =>
    show (match copy_one src_folder output_folder fs e with
      | (fs1, none) => copy_entries src_folder output_folder fs1 rest
      | (fs1, some err) => (fs1, some err)) = _
    unfold copy_one
    cases hd : utf8Decode e.2 with
    | some text =>
      simp only []
      rw [ih]
      refine Prod.ext ?_ ?_
      · refine FS.ext ?_ ?_ <;> funext q
        · show (runDir src_folder output_folder rest q ||
              (if q = (entry_out src_folder output_folder e).dropLast then true
                else fs.dirs q)) = _
          simp only [runDir, hd]
          by_cases hq : q = (entry_out src_folder output_folder e).dropLast <;>
            simp [hq, Bool.or_comm]
        · show (runWrite src_folder output_folder rest q).elim
              (if q = entry_out src_folder output_folder e then some text
                else (if q = entry_out src_folder output_folder e then some ""
                  else fs.files q)) some = _
          simp only [runWrite, hd]
          cases hw : runWrite src_folder output_folder rest q with
          | some v => simp [hw]
          | none =>
            by_cases hq : q = entry_out src_folder output_folder e <;> simp [hw, hq]
      · show runErr rest = runErr (e :: rest)
        simp [runErr, hd]
    | none =>
      simp only []
      refine Prod.ext ?_ ?_
      · refine FS.ext ?_ ?_ <;> funext q
        · show (if q = (entry_out src_folder output_folder e).dropLast then true
              else fs.dirs q) = _
          simp only [runDir, hd]
          by_cases hq : q = (entry_out src_folder output_folder e).dropLast <;> simp [hq]
        · show (if q = entry_out src_folder output_folder e then some ""
              else fs.files q) = _
          simp only [runWrite, hd]
          by_cases hq : q = entry_out src_folder output_folder e <;> simp [hq]
      · show some e.1 = runErr (e :: rest)
        simp [runErr, hd]

/-! ### Supporting lemmas about one extraction run -/

theorem runErr_eq_none_iff (es : List (RPath × Bytes)) :
    runErr es = none ↔ ∀ e ∈ es, (utf8Decode e.2).isSome := by
  induction es with
  | nil => simp [runErr]
  | cons e rest ih =>
    cases hd : utf8Decode e.2 with
    | some t => simp [runErr, hd, ih]
    | none => simp [runErr, hd]

theorem runWrite_none_of_not_mem (src dest : RPath) (es : List (RPath × Bytes))
    (p : RPath) (h : ∀ e ∈ es, p ≠ entry_out src dest e) :
    runWrite src dest es p = none := by
  induction es with
  | nil => rfl
  | cons e rest ih =>
    have h1 := h e (by simp)
    have h2 : ∀ e2 ∈ rest, p ≠ entry_out src dest e2 :=
      fun e2 he2 => h e2 (by simp [he2])
    cases hd : utf8Decode e.2 <;> simp [runWrite, hd, h1, ih h2]

theorem runWrite_mem_of_ne_none (src dest : RPath) (es : List (RPath × Bytes))
    (p : RPath) (h : runWrite src dest es p ≠ none) :
    ∃ e, e ∈ es ∧ p = entry_out src dest e := by
  induction es with
  | nil => exact absurd rfl h
  | cons e rest ih =>
    by_cases hp : p = entry_out src dest e
    · exact ⟨e, by simp, hp⟩
    · cases hd : utf8Decode e.2 with
      | some t =>
        rw [runWrite, hd] at h
        cases hw : runWrite src dest rest p with
        | some v =>
          obtain ⟨e2, he2, hpe⟩ := ih (by simp [hw])
          exact ⟨e2, by simp [he2], hpe⟩
        | none => rw [hw] at h; simp [hp] at h
      | none => rw [runWrite, hd] at h; simp [hp] at h

theorem runDir_mem (src dest : RPath) (es : List (RPath × Bytes)) (p : RPath)
    (h : runDir src dest es p = true) :
    ∃ e, e ∈ es ∧ p = (entry_out src dest e).dropLast := by
  induction es with
  | nil => simp [runDir] at h
  | cons e rest ih =>
    cases hd : utf8Decode e.2 with
    | some t =>
      rw [runDir, hd] at h
      rcases Bool.or_eq_true_iff.mp h with hp | hr
      · exact ⟨e, by simp, of_decide_eq_true hp⟩
      · obtain ⟨e2, he2, hpe⟩ := ih hr
        exact ⟨e2, by simp [he2], hpe⟩
    | none =>
      rw [runDir, hd] at h
      exact ⟨e, by simp, of_decide_eq_true h⟩

theorem runWrite_of_nodup (src dest : RPath) (es : List (RPath × Bytes))
    (hnd : (es.map (entry_out src dest)).Nodup)
    (hdec : ∀ e ∈ es, (utf8Decode e.2).isSome) :
    ∀ e ∈ es, runWrite src dest es (entry_out src dest e) = utf8Decode e.2 := by
  induction es with
  | nil => simp
  | cons e0 rest ih =>
    have hnd2 : (entry_out src dest e0 :: rest.map (entry_out src dest)).Nodup := by
      simpa using hnd
    intro e he
    rcases List.mem_cons.mp he with rfl | hmem
    · obtain ⟨t, ht⟩ := Option.isSome_iff_exists.mp (hdec e (by simp))
      have hnotin : ∀ e2 ∈ rest, entry_out src dest e ≠ entry_out src dest e2 := by
        intro e2 he2 hEq
        exact (List.nodup_cons.mp hnd2).1
          (hEq ▸ List.mem_map_of_mem (entry_out src dest) he2)
      have hzero : runWrite src dest rest (entry_out src dest e) = none :=
        runWrite_none_of_not_mem _ _ _ _ hnotin
      simp [runWrite, ht, hzero]
    · obtain ⟨t0, ht0⟩ := Option.isSome_iff_exists.mp (hdec e0 (by simp))
      obtain ⟨t, ht⟩ := Option.isSome_iff_exists.mp (hdec e (by simp [hmem]))
      have hrest := ih ((List.nodup_cons.mp hnd2).2)
        (fun e2 he2 => hdec e2 (by simp [he2])) e hmem
      simp [runWrite, ht0, hrest, ht]

/-- The test `Path(src_folder) in Path(p).parents` holds exactly when `src`
is a strict ancestor directory of `p`: a proper prefix of its segments. -/
theorem in_parents_spec (src p : RPath) :
    in_parents src p = true ↔ (src <+: p ∧ src ≠ p) := by
  unfold in_parents
  simp only [Bool.and_eq_true, decide_eq_true_eq, List.isPrefixOf_iff_prefix]
  constructor
  · rintro ⟨hpre, hlen⟩
    exact ⟨hpre, fun hEq => by simp [hEq] at hlen⟩
  · rintro ⟨⟨t, rfl⟩, hne⟩
    refine ⟨⟨t, rfl⟩, ?_⟩
    cases t with
    | nil => simp at hne
    | cons a t2 => simp

theorem relpath_ne_nil (src p : RPath) (h : in_parents src p = true) :
    relpath p src ≠ [] := by
  unfold in_parents at h
  simp only [Bool.and_eq_true, decide_eq_true_eq] at h
  unfold relpath
  intro hnil
  have hlen : p.length - src.length = 0 := by
    simpa using congrArg List.length hnil
  omega

theorem mem_list_paths_in_parents (t : GitTree) (src : RPath) (e : RPath × Bytes)
    (he : e ∈ list_paths t src []) : in_parents src e.1 = true := by
  rw [list_paths_eq_filter] at he
  exact (List.mem_filter.mp he).2

theorem prefix_dropLast_append (dest r : RPath) (hr : r ≠ []) :
    dest <+: (dest ++ r).dropLast := by
  cases r with
  | nil => exact absurd rfl hr
  | cons a r2 => rw [ List.dropLast_append_cons]; exact List.prefix_append _ _

theorem entry_out_nodup (src dest : RPath) (es : List (RPath × Bytes))
    (hsrc : ∀ e ∈ es, in_parents src e.1 = true)
    (hnd : (es.map (fun e => e.1)).Nodup) :
    (es.map (entry_out src dest)).Nodup := by
  have hmap : es.map (entry_out src dest) =
      (es.map (fun e => e.1)).map (fun p => dest ++ p.drop src.length) := by
    simp [entry_out, relpath, Function.comp_def]
  rw [hmap]
  refine List.Nodup.map_on ?_ hnd
  intro p1 h1 p2 h2 hEq
  obtain ⟨e1, he1, rfl⟩ := List.mem_map.mp h1
  obtain ⟨e2, he2, rfl⟩ := List.mem_map.mp h2
  have hp1 := (in_parents_spec src e1.1).mp (hsrc e1 he1)
  have hp2 := (in_parents_spec src e2.1).mp (hsrc e2 he2)
  obtain ⟨t1, ht1⟩ := hp1.1
  obtain ⟨t2, ht2⟩ := hp2.1
  have hd : e1.1.drop src.length = e2.1.drop src.length :=
    List.append_cancel_left hEq
  rw [← ht1, ← ht2, List.drop_left, List.drop_left] at hd
  rw [← ht1, ← ht2, hd]

/-! ### jdiff exit codes (module-level constants of the script) -/

def NO_CHANGES : Int := 100
def COMPATIBLE : Int := 101
def NON_COMPATIBLE : Int := 102
def ERROR : Int := 1

/-! ### Process wrappers -/

/-- Outcome of `subprocess.Popen(cmd, ...)` followed by `wait()`: the process
ran and produced an exit code, or launching it raised an exception. -/
inductive LaunchOutcome where
  | ok (returncode : Int)
  | raised (msg : String)

/-- Observable state of one wrapper call: the final content of the log file
it wrote and the lines printed to stdout. -/
structure RunState where
  log : String
  printed : List String
deriving DecidableEq

/-- Result of running a wrapper: a normal return, or `exit(1)` terminating
the whole program. -/
inductive Outcome (α : Type) where
  | ret (v : α) (s : RunState)
  | exited (code : Nat) (s : RunState)

/-- Whether the wrapper terminated the program via `exit`. -/
def Outcome.isExited {α : Type} : Outcome α → Bool
  | .ret _ _ => false
  | .exited _ _ => true

/-- The log/console state the wrapper ends in. -/
def Outcome.finalState {α : Type} : Outcome α → RunState
  | .ret _ s => s
  | .exited _ s => s

/-- One `log_and_print(log, message)` call: the timestamped message is
printed to stdout and appended to the log file. -/
def log_and_print (ts msg : String) (s : RunState) : RunState :=
  { log := s.log ++ (ts ++ ": " ++ msg ++ "\n"),
    printed := s.printed ++ [ts ++ ": " ++ msg] }

/-- The embedding of `open_log_file(log_path)`: when the file is missing it
is created empty (`make_dir` on the parent plus `touch`), then the file is
opened with mode `a+`, which keeps existing content.  `prev` is the file's
content before the call, `none` when it does not exist yet. -/
def open_log_file (prev : Option String) : String := prev.getD ""

/-- A single-quote character, written via its code point. -/
def squote : String := String.singleton (Char.ofNat 39)

/-- The Python rendering `str(packages)` of a list of strings. -/
def py_str_list (l : List String) : String :=
  "[" ++ String.intercalate ", " (l.map (fun p => squote ++ p ++ squote)) ++ "]"

/-- The embedding of `gen_xml(jdiff_path, output_path, log_output_path, src,
packages)`.  The `make_dir(output_path)` filesystem effect and the command
line built from the path arguments are abstracted into `launch`, the outcome
of the `javadoc` launch; `prevLog` is the log file's content before the call
and `subOut` the combined stdout/stderr the launched process writes into the
log while the wrapper waits.  The exit code of a successfully launched
process is never examined. -/
def gen_xml (ts : String) (prevLog : Option String) (launch : LaunchOutcome)
    (subOut : String) (src output_path : String) (packages : List String) :
    Outcome Unit :=
  let s0 : RunState := { log := open_log_file prevLog, printed := [] }
  let s1 := log_and_print ts
    ("Generating XML for: " ++ src ++ " outputting to: " ++ output_path) s0
  match launch with
  | .raised m =>
    .exited 1 (log_and_print ts ("Error executing javadoc " ++ m ++ "\nExiting...") s1)
  | .ok _returncode =>
    let s2 := { s1 with log := s1.log ++ subOut }
    .ret () (log_and_print ts ("Generated XML for: " ++ py_str_list packages) s2)

/-- The embedding of `compare_xml(jdiff_path, root_dir, output_folder,
oldapi_folder, newapi_folder, api_file_name, log_path)`.  The comment-staging
`make_dir` and the command line built from the path arguments are abstracted
into `launch`.  The log file is opened with `open(log_path, "w")`: mode `w`
truncates, so the previous content `prevLog` is discarded and the log ends up
holding only the launched comparator's output. -/
def compare_xml (ts : String) (oldapi_folder newapi_folder : String)
    (prevLog : Option String) (launch : LaunchOutcome) (subOut : String) :
    Outcome Int :=
  let s0 : RunState := { log := "", printed := [] }
  match launch with
  | .raised m =>
    .exited 1 (log_and_print ts ("Error executing javadoc: " ++ m ++ "\nExiting...") s0)
  | .ok code =>
    let s1 : RunState := { log := s0.log ++ subOut, printed := s0.printed }
    let header := "Compared XML for " ++ oldapi_folder ++ " " ++ newapi_folder
    let cls :=
      if code = NO_CHANGES then "  No API changes"
      else if code = COMPATIBLE then "  API Changes are backwards compatible"
      else if code = NON_COMPATIBLE then "  API Changes are not backwards compatible"
      else "  *Error in XML, most likely an empty module"
    .ret code { s1 with printed := s1.printed ++ [header, cls] }

/-- Modelled from the spec classification table (section 4.2): the four
comparison outcomes. -/
inductive DiffClass where
  | noChanges | compatible | incompatible | errorState
deriving DecidableEq

/-- Spec-side classification of a comparator exit code: 100 no changes, 101
compatible, 102 incompatible, anything else an error state. -/
def spec_classify (code : Int) : DiffClass :=
  if code = 100 then .noChanges
  else if code = 101 then .compatible
  else if code = 102 then .incompatible
  else .errorState

/-- The console line `compare_xml` prints for each classification. -/
def class_message : DiffClass → String
  | .noChanges => "  No API changes"
  | .compatible => "  API Changes are backwards compatible"
  | .incompatible => "  API Changes are not backwards compatible"
  | .errorState => "  *Error in XML, most likely an empty module"

/-! ### `fix_path` and `make_dir` -/

/-- The characters of the foreign-mount marker `cygdrive`. -/
def cygdrive_chars : List Char := ['c', 'y', 'g', 'd', 'r', 'i', 'v', 'e']

/-- The embedding of `fix_path(path)` over paths as character lists: when
`"cygdrive" in path` holds, return `"C:/" + path[11:]`, otherwise the path
unchanged. -/
def fix_path (path : List Char) : List Char :=
  if cygdrive_chars <:+: path then 'C' :: ':' :: '/' :: path.drop 11 else path

/-- Result of a Python call: a normal return with printed output, or an
uncaught exception. -/
inductive PyResult (α : Type) where
  | ret (v : α) (printed : List String)
  | raised (exc : String)

/-- `os.makedirs(dir_path)`: raises `IOError` when creation fails. -/
def os_makedirs (createFails : Bool) : Except String Unit :=
  if createFails then .error "IOError" else Except.ok ()

/-- The try-block of `make_dir`: run `makedirs` when the directory is
missing, then re-check `os.path.isdir` (after a successful `makedirs` the
directory exists). -/
def make_dir_try (isdir0 createFails : Bool) : Except String Bool :=
  if isdir0 = false then
    match os_makedirs createFails with
    | .error e => .error e
    | .ok _ => Except.ok true
  else Except.ok true

/-- Whether the directory exists after a `make_dir` call: it existed before,
or `os.makedirs` succeeded in creating it. -/
def isdir_after (isdir0 createFails : Bool) : Bool := isdir0 || !createFails

/-- The embedding of `make_dir(dir_path)`: `isdir0` says whether the
directory exists before the call, `createFails` whether `os.makedirs` raises
`IOError`; the `except IOError` handler prints a message and returns
`False`. -/
def make_dir (dir_path : String) (isdir0 createFails : Bool) : PyResult Bool :=
  match make_dir_try isdir0 createFails with
  | .ok b => .ret b []
  | .error _ => .ret false ["Exception thrown when creating directory: " ++ dir_path]

/-! ### Claims about the process wrappers -/

/-- Counterexample to claim C1 as stated: the launched generation process
exits with status 1 (non-zero), yet `gen_xml` returns normally instead of
terminating the program — the wrapper never examines `jdiff.returncode`. -/
theorem gen_xml_nonzero_exit_not_fatal :
    (gen_xml "ts" none (.ok 1) "" "srcdir" "outdir"
      ["org.sleuthkit.datamodel"]).isExited = false := rfl

/-- Claim C1 (amended): `gen_xml` treats a launch failure of the external
documentation-generation process as fatal — it logs the error and terminates
the whole program with `exit(1)` — but the exit status of a successfully
launched process is never examined, so a non-zero exit status is not fatal
and execution continues past the failed generation. -/
theorem gen_xml_fatal_only_on_launch_failure :
    (∀ ts prevLog m subOut src outp pkgs,
      ∃ s, gen_xml ts prevLog (.raised m) subOut src outp pkgs = .exited 1 s) ∧
    (∀ ts prevLog code subOut src outp pkgs,
      ∃ s, gen_xml ts prevLog (.ok code) subOut src outp pkgs = .ret () s) :=
  ⟨fun _ _ _ _ _ _ _ => ⟨_, rfl⟩, fun _ _ _ _ _ _ _ => ⟨_, rfl⟩⟩

/-- Claim C3: for every successful launch, `compare_xml` returns the
comparator's raw exit code unchanged; the printed classification follows the
100/101/102 table of the spec, any other exit value being reported as an
error condition; and no branch of the successful-launch path raises or
exits. -/
theorem compare_xml_returns_raw_code (ts oldf newf : String)
    (prevLog : Option String) (code : Int) (subOut : String) :
    compare_xml ts oldf newf prevLog (.ok code) subOut =
      .ret code { log := "" ++ subOut,
                  printed := ["Compared XML for " ++ oldf ++ " " ++ newf,
                              class_message (spec_classify code)] } := by
  unfold compare_xml spec_classify class_message NO_CHANGES COMPATIBLE NON_COMPATIBLE
  by_cases h100 : code = 100 <;> by_cases h101 : code = 101 <;>
    by_cases h102 : code = 102 <;> simp [h100, h101, h102]

/-- Counterexample to claim C4 as stated: with prior log content `"G"`, the
comparison stage leaves the log holding only the comparator's own output —
`compare_xml` opens the shared log with mode `"w"`, truncating it, so content
written by earlier stages of the same run is not preserved. -/
theorem compare_xml_truncates_log_counterexample :
    ("G".isPrefixOf
      (compare_xml "ts" "old" "new" (some "G") (.ok 100) "").finalState.log) = false := by
  decide

/-- Claim C4 (amended): `gen_xml` opens the shared log via `open_log_file` in
append mode, so its writes extend the log's prior content; but `compare_xml`
opens the same log path with mode `"w"`, truncating it, so the comparison
stage discards the content written by earlier stages of the same run and the
log is not append-only. -/
theorem log_append_in_gen_but_truncated_in_compare :
    (∀ ts prev launch subOut src outp pkgs,
      ∃ tail, (gen_xml ts (some prev) launch subOut src outp pkgs).finalState.log
        = prev ++ tail) ∧
    (∀ ts oldf newf prev code subOut,
      (compare_xml ts oldf newf (some prev) (.ok code) subOut).finalState.log
        = "" ++ subOut) := by
  constructor
  · intro ts prev launch subOut src outp pkgs
    cases launch with
    | raised m =>
      exact ⟨_, (String.append_assoc prev _ _).trans rfl⟩
    | ok code =>
      exact ⟨_, ((String.append_assoc (prev ++ _) _ _).trans
        (String.append_assoc prev _ _)).trans rfl⟩
  · intro ts oldf newf prev code subOut
    rfl

/-- Counterexample to claim C5 as stated: when the comparison process cannot
be started, `compare_xml` terminates the whole program via `exit(1)` instead
of reporting a non-fatal error classification. -/
theorem compare_xml_launch_failure_exits :
    (compare_xml "ts" "old" "new" none (.raised "boom") "").isExited = true := rfl

/-- Claim C5 (amended): a comparison-stage launch failure is handled exactly
like a generation-stage one — `compare_xml` logs the exception text and
terminates the whole program with `exit(1)`.  The non-raising error
classification applies only to unrecognized exit codes of a successfully
launched comparator, which are returned normally. -/
theorem compare_xml_launch_failure_fatal :
    (∀ ts oldf newf prevLog m subOut,
      ∃ s, compare_xml ts oldf newf prevLog (.raised m) subOut = .exited 1 s) ∧
    (∀ ts oldf newf prevLog code subOut, spec_classify code = .errorState →
      ∃ s, compare_xml ts oldf newf prevLog (.ok code) subOut = .ret code s) :=
  ⟨fun _ _ _ _ _ _ => ⟨_, rfl⟩, fun _ _ _ _ _ _ _ => ⟨_, rfl⟩⟩

/-- Witness for C5: the launch-failure branch at a concrete input, and the
concrete error-classified exit code 1 being returned without raising. -/
theorem compare_xml_launch_failure_fatal_witness :
    (∃ s, compare_xml "ts" "old" "new" none (.raised "boom") "" = .exited 1 s) ∧
    spec_classify 1 = .errorState ∧
    (∃ s, compare_xml "ts" "old" "new" none (.ok 1) "" = .ret 1 s) :=
  ⟨compare_xml_launch_failure_fatal.1 "ts" "old" "new" none "boom" "",
   by decide,
   compare_xml_launch_failure_fatal.2 "ts" "old" "new" none 1 "" (by decide)⟩

/-- Claim C6: `fix_path` rewrites any path containing the foreign-mount
marker `cygdrive` by dropping the marker prefix — the leading 11 characters
`/cygdrive/X` in the canonical form — and substituting the canonical drive
root `C:/`, so a canonical `/cygdrive/<drive><remainder>` becomes
`C:/<remainder>`; every path not containing the marker is returned
unchanged. -/
theorem fix_path_spec :
    (∀ p : List Char, cygdrive_chars <:+: p →
      fix_path p = 'C' :: ':' :: '/' :: p.drop 11) ∧
    (∀ (d : Char) (rest : List Char),
      fix_path ('/' :: 'c' :: 'y' :: 'g' :: 'd' :: 'r' :: 'i' :: 'v' :: 'e' :: '/' ::
          d :: rest)
        = 'C' :: ':' :: '/' :: rest) ∧
    (∀ p : List Char, ¬ cygdrive_chars <:+: p → fix_path p = p) := by
  refine ⟨?_, ?_, ?_⟩
  · intro p h
    simp [fix_path, h]
  · intro d rest
    have h : cygdrive_chars <:+:
        ('/' :: 'c' :: 'y' :: 'g' :: 'd' :: 'r' :: 'i' :: 'v' :: 'e' :: '/' ::
          d :: rest) :=
      ⟨['/'], '/' :: d :: rest, rfl⟩
    simp [fix_path, h]
  · intro p h
    simp [fix_path, h]

/-- Witness for C6: a concrete cygwin-style path is rewritten to the
canonical drive form, and a concrete marker-free path is unchanged. -/
theorem fix_path_spec_witness :
    (cygdrive_chars <:+: "/cygdrive/c/repo".toList) ∧
    fix_path "/cygdrive/c/repo".toList =
      'C' :: ':' :: '/' :: "/cygdrive/c/repo".toList.drop 11 ∧
    (¬ cygdrive_chars <:+: "/tmp/x".toList) ∧
    fix_path "/tmp/x".toList = "/tmp/x".toList :=
  ⟨by decide, fix_path_spec.1 _ (by decide), by decide, fix_path_spec.2.2 _ (by decide)⟩

/-- Claim C10: `make_dir` never propagates a filesystem error to its caller:
for every directory path it returns normally with `True` exactly when the
directory exists after the call (creating it when missing), and on an
`IOError` during creation it prints a message and returns `False` instead of
raising. -/
theorem make_dir_never_raises (dir_path : String) (isdir0 createFails : Bool) :
    make_dir dir_path isdir0 createFails =
      .ret (isdir_after isdir0 createFails)
        (if isdir0 = false ∧ createFails = true
          then ["Exception thrown when creating directory: " ++ dir_path] else []) := by
  cases isdir0 <;> cases createFails <;>
    simp [make_dir, make_dir_try, os_makedirs, isdir_after]

/-! ### Claims about the extractor -/

/-- Example tree: a README at the root (outside the prefix) and `src/Main`
holding the two bytes of "hi". -/
def exGood : GitTree :=
  .node [("README", [35])]
    (.cons "src" (.node [("Main", [104, 105])] .nil) .nil)

/-- Example tree whose only entry under `src` holds the invalid UTF-8 byte
0xFF. -/
def exBad : GitTree :=
  .node [] (.cons "src" (.node [("Bad", [255])] .nil) .nil)

/-- Example source prefix. -/
def ex_src : RPath := ["src"]

/-- Example destination directory. -/
def ex_dest : RPath := ["out"]

/-- Claim C2: extraction materializes an entry if and only if the source
prefix is a strict ancestor directory of the entry's path (the walk yields
exactly the filtered entries, and the filter is the strict-ancestor
relation), and writes each included file at the destination joined with the
file's path relative to the prefix, with content equal to the UTF-8-decoded
bytes of the source blob; nothing else is written.  The hypotheses state
that entry paths are distinct (a git-tree invariant: names are unique per
directory) and that every included blob decodes. -/
theorem copy_commit_paths_exact_extraction
    (tree : GitTree) (src dest : RPath) (fs : FS)
    (hnd : ((list_paths tree src []).map (fun e => e.1)).Nodup)
    (hdec : ∀ e ∈ list_paths tree src [], (utf8Decode e.2).isSome) :
    list_paths tree src [] =
      (tree_entries tree []).filter (fun e => in_parents src e.1) ∧
    (∀ p : RPath, in_parents src p = true ↔ (src <+: p ∧ src ≠ p)) ∧
    (copy_commit_paths tree src dest fs).2 = none ∧
    (∀ e ∈ list_paths tree src [],
      (copy_commit_paths tree src dest fs).1.files (dest ++ relpath e.1 src)
        = utf8Decode e.2) ∧
    (∀ p : RPath, (copy_commit_paths tree src dest fs).1.files p ≠ fs.files p →
      ∃ e, e ∈ list_paths tree src [] ∧ p = dest ++ relpath e.1 src) := by
  have hsrc : ∀ e ∈ list_paths tree src [], in_parents src e.1 = true :=
    fun e he => mem_list_paths_in_parents tree src e he
  have hout : ((list_paths tree src []).map (entry_out src dest)).Nodup :=
    entry_out_nodup src dest _ hsrc hnd
  refine ⟨list_paths_eq_filter tree src [], fun p => in_parents_spec src p, ?_, ?_, ?_⟩
  · unfold copy_commit_paths
    rw [copy_entries_eq]
    exact (runErr_eq_none_iff _).mpr hdec
  · intro e he
    unfold copy_commit_paths
    rw [copy_entries_eq]
    show (runWrite src dest (list_paths tree src []) (entry_out src dest e)).elim
        (fs.files (entry_out src dest e)) some = utf8Decode e.2
    rw [runWrite_of_nodup src dest _ hout hdec e he]
    obtain ⟨t, ht⟩ := Option.isSome_iff_exists.mp (hdec e he)
    rw [ht]
    rfl
  · intro p hne
    have hne2 : (runWrite src dest (list_paths tree src []) p).elim
        (fs.files p) some ≠ fs.files p := by
      unfold copy_commit_paths at hne
      rw [copy_entries_eq] at hne
      exact hne
    cases hw : runWrite src dest (list_paths tree src []) p with
    | none => rw [hw] at hne2; exact absurd rfl hne2
    | some v =>
      exact runWrite_mem_of_ne_none src dest _ p (by simp [hw])

/-- Witness for C2: the example tree has a root README (excluded) and
`src/Main` containing the bytes of "hi" (included); the hypotheses are
discharged by evaluation. -/
theorem copy_commit_paths_exact_extraction_witness :
    list_paths exGood ex_src [] =
      (tree_entries exGood []).filter (fun e => in_parents ex_src e.1) ∧
    (∀ p : RPath, in_parents ex_src p = true ↔ (ex_src <+: p ∧ ex_src ≠ p)) ∧
    (copy_commit_paths exGood ex_src ex_dest FS.empty).2 = none ∧
    (∀ e ∈ list_paths exGood ex_src [],
      (copy_commit_paths exGood ex_src ex_dest FS.empty).1.files
          (ex_dest ++ relpath e.1 ex_src)
        = utf8Decode e.2) ∧
    (∀ p : RPath,
      (copy_commit_paths exGood ex_src ex_dest FS.empty).1.files p ≠ FS.empty.files p →
      ∃ e, e ∈ list_paths exGood ex_src [] ∧ p = ex_dest ++ relpath e.1 ex_src) :=
  copy_commit_paths_exact_extraction exGood ex_src ex_dest FS.empty
    (by decide) (by decide)

/-- Claim C7: if any single file under the source prefix fails to decode as
UTF-8, the extraction run ends in the propagating error — it is not reported
as a success. -/
theorem copy_commit_paths_aborts_on_decode_failure
    (tree : GitTree) (src dest : RPath) (fs : FS)
    (h : ∃ e ∈ list_paths tree src [], utf8Decode e.2 = none) :
    ((copy_commit_paths tree src dest fs).2).isSome = true := by
  unfold copy_commit_paths
  rw [copy_entries_eq]
  show (runErr (list_paths tree src [])).isSome = true
  obtain ⟨e, he, hd⟩ := h
  cases hr : runErr (list_paths tree src []) with
  | some err => rfl
  | none =>
    have hs := (runErr_eq_none_iff _).mp hr e he
    rw [hd] at hs
    exact absurd hs (by simp)

/-- Witness for C7: a tree whose only entry under `src` holds the invalid
byte 0xFF; extraction ends in an error. -/
theorem copy_commit_paths_aborts_witness :
    (∃ e ∈ list_paths exBad ex_src [], utf8Decode e.2 = none) ∧
    ((copy_commit_paths exBad ex_src ex_dest FS.empty).2).isSome = true :=
  ⟨by decide,
   copy_commit_paths_aborts_on_decode_failure exBad ex_src ex_dest FS.empty (by decide)⟩

/-- Claim C8: every file or directory the extractor touches lies under the
destination (the destination is a prefix of its path); every written file
comes from an entry whose tree path lies strictly under the source prefix;
and a prefix matching no files leaves the filesystem unchanged with no
error. -/
theorem copy_commit_paths_stays_in_dest (tree : GitTree) (src dest : RPath) (fs : FS) :
    (∀ p : RPath,
      ((copy_commit_paths tree src dest fs).1.files p ≠ fs.files p ∨
       (copy_commit_paths tree src dest fs).1.dirs p ≠ fs.dirs p) → dest <+: p) ∧
    (∀ p : RPath, (copy_commit_paths tree src dest fs).1.files p ≠ fs.files p →
      ∃ e, e ∈ list_paths tree src [] ∧ in_parents src e.1 = true ∧
        p = dest ++ relpath e.1 src) ∧
    (list_paths tree src [] = [] → copy_commit_paths tree src dest fs = (fs, none)) := by
  have hfw : ∀ p : RPath, (copy_commit_paths tree src dest fs).1.files p ≠ fs.files p →
      ∃ e, e ∈ list_paths tree src [] ∧ p = entry_out src dest e := by
    intro p hne
    have hne2 : (runWrite src dest (list_paths tree src []) p).elim
        (fs.files p) some ≠ fs.files p := by
      unfold copy_commit_paths at hne
      rw [copy_entries_eq] at hne
      exact hne
    cases hw : runWrite src dest (list_paths tree src []) p with
    | none => rw [hw] at hne2; exact absurd rfl hne2
    | some v => exact runWrite_mem_of_ne_none src dest _ p (by simp [hw])
  have hdw : ∀ p : RPath, (copy_commit_paths tree src dest fs).1.dirs p ≠ fs.dirs p →
      runDir src dest (list_paths tree src []) p = true := by
    intro p hne
    have hne2 : (runDir src dest (list_paths tree src []) p || fs.dirs p) ≠ fs.dirs p := by
      unfold copy_commit_paths at hne
      rw [copy_entries_eq] at hne
      exact hne
    cases hrd : runDir src dest (list_paths tree src []) p with
    | false => rw [hrd] at hne2; exact absurd (by simp) hne2
    | true => rfl
  refine ⟨?_, ?_, ?_⟩
  · intro p hp
    rcases hp with hf | hd
    · obtain ⟨e, he, rfl⟩ := hfw p hf
      exact List.prefix_append dest _
    · obtain ⟨e, he, rfl⟩ := runDir_mem src dest _ p (hdw p hd)
      exact prefix_dropLast_append dest _
        (relpath_ne_nil src e.1 (mem_list_paths_in_parents tree src e he))
  · intro p hf
    obtain ⟨e, he, rfl⟩ := hfw p hf
    exact ⟨e, he, mem_list_paths_in_parents tree src e he, rfl⟩
  · intro h
    unfold copy_commit_paths
    rw [h]
    rfl

/-- Witness for C8: the frame property applied at the concrete example
tree. -/
theorem copy_commit_paths_stays_in_dest_witness :
    (∀ p : RPath,
      ((copy_commit_paths exGood ex_src ex_dest FS.empty).1.files p ≠ FS.empty.files p ∨
       (copy_commit_paths exGood ex_src ex_dest FS.empty).1.dirs p ≠ FS.empty.dirs p) →
      ex_dest <+: p) ∧
    (∀ p : RPath,
      (copy_commit_paths exGood ex_src ex_dest FS.empty).1.files p ≠ FS.empty.files p →
      ∃ e, e ∈ list_paths exGood ex_src [] ∧ in_parents ex_src e.1 = true ∧
        p = ex_dest ++ relpath e.1 ex_src) ∧
    (list_paths exGood ex_src [] = [] →
      copy_commit_paths exGood ex_src ex_dest FS.empty = (FS.empty, none)) :=
  copy_commit_paths_stays_in_dest exGood ex_src ex_dest FS.empty

/-- Claim C9: extraction is idempotent — running `copy_commit_paths` a second
time with the same tree, source prefix and destination, starting from the
state the first run produced, yields exactly the same state and the same
outcome, every file being overwritten identically. -/
theorem copy_commit_paths_idempotent (tree : GitTree) (src dest : RPath) (fs : FS) :
    copy_commit_paths tree src dest (copy_commit_paths tree src dest fs).1 =
      copy_commit_paths tree src dest fs := by
  unfold copy_commit_paths
  simp only [copy_entries_eq]
  refine Prod.ext ?_ rfl
  refine FS.ext ?_ ?_ <;> funext q
  · show (runDir src dest (list_paths tree src []) q ||
        (runDir src dest (list_paths tree src []) q || fs.dirs q)) =
      (runDir src dest (list_paths tree src []) q || fs.dirs q)
    cases runDir src dest (list_paths tree src []) q <;> simp
  · show (runWrite src dest (list_paths tree src []) q).elim
        ((runWrite src dest (list_paths tree src []) q).elim (fs.files q) some) some =
      (runWrite src dest (list_paths tree src []) q).elim (fs.files q) some
    cases runWrite src dest (list_paths tree src []) q <;> simp
